import Mathlib

/-!
Shallow embedding of the `sh` shell-execution library (a zx fork):
`src/sh.js`, `src/ProcessPromise.js`, `src/ProcessOutput.js`.
External collaborators (`quote`, `parseDuration`, `psTree`, `exitCodeInfo`,
`errnoMessage`, the spawn primitive, `Math.random`) are parameters of the
definitions, as the library treats them as pluggable platform primitives.
-/

namespace Sh

/-! ### ProcessOutput (src/ProcessOutput.js) -/

/-- The uniform result record built on process exit or spawn error.
`code` is `none` when the OS reported no exit code (signal or spawn error),
mirroring `null`; `signal` likewise. -/
structure ProcessOutput where
  code : Option Int
  signal : Option String
  stdout : String
  stderr : String
  combined : String
  message : String
deriving DecidableEq, Repr

/-- Getter `get exitCode() { return this.#code; }`. -/
def ProcessOutput.exitCode (o : ProcessOutput) : Option Int := o.code

/-- JavaScript `String.prototype.trim`: remove whitespace from both ends. -/
def jsTrim (s : String) : String :=
  ⟨((s.data.dropWhile Char.isWhitespace).reverse.dropWhile Char.isWhitespace).reverse⟩

/-- `toString() { return this.#combined.trim(); }` — the default string
coercion of a ProcessOutput. -/
def ProcessOutput.toText (o : ProcessOutput) : String := jsTrim o.combined

/-! ### Command builder (src/sh.js, the `SH` template function) -/

/-- A scalar interpolated value: a plain string, or a previously resolved
`ProcessOutput` (the case the spec singles out as carrying a `stdout` field). -/
inductive Scalar where
  | str (s : String)
  | out (o : ProcessOutput)
deriving DecidableEq, Repr

/-- JavaScript template coercion `${arg}`: a string stays itself, a
`ProcessOutput` goes through its `toString`, i.e. the combined buffer trimmed. -/
def Scalar.coerce : Scalar → String
  | .str s => s
  | .out o => o.toText

/-- `sanitizeArg` (src/sh.js line 53): coerce to string, then apply the
platform quoting function. -/
def sanitizeArg (quoteFn : String → String) (v : Scalar) : String :=
  quoteFn v.coerce

/-- An interpolated value: a scalar or an array of scalars. -/
inductive SHValue where
  | scalar (v : Scalar)
  | arr (xs : List Scalar)
deriving DecidableEq, Repr

/-- The per-value substitution in the interpolation loop (src/sh.js
lines 87-96): arrays map `sanitizeArg` over the elements and join with a
single space; scalars go through `sanitizeArg`. -/
def substValue (quoteFn : String → String) : SHValue → String
  | .scalar v => sanitizeArg quoteFn v
  | .arr xs => String.intercalate " " (xs.map (sanitizeArg quoteFn))

/-- A template literal: the first literal fragment, then (value, fragment)
pairs. `none` models an `undefined` fragment. -/
structure Template where
  head : Option String
  rest : List (SHValue × Option String)

/-- The ordered list of literal fragments of a template (`pieces`). -/
def Template.pieces (t : Template) : List (Option String) :=
  t.head :: t.rest.map Prod.snd

/-- The interpolation loop: `cmd = pieces[0]; while (i < args.length)
cmd += s + pieces[++i]`. -/
def interpolate (quoteFn : String → String) (t : Template) : String :=
  t.rest.foldl (fun cmd p => cmd ++ substValue quoteFn p.1 ++ p.2.getD "") (t.head.getD "")

/-- The `SH` template function, command-construction part (src/sh.js
lines 81-96): throw `Malformed command at <from>` when some fragment is
undefined, else build the command string. -/
def buildCmd (quoteFn : String → String) (callSite : String) (t : Template) :
    Except String String :=
  if t.pieces.any Option.isNone then
    Except.error ("Malformed command at " ++ callSite)
  else
    Except.ok (interpolate quoteFn t)

/-! Spec-worded builder for claim C2: scalars carrying a `stdout` field are
replaced by that stdout text with one trailing newline stripped; other
scalars are coerced and escaped. -/

/-- Drop one trailing newline, the `replace(/\n$/, '')` of the spec. -/
def stripTrailingNewline (s : String) : String :=
  if s.data.getLast? = some '\n' then ⟨s.data.dropLast⟩ else s

/-- Per the claim text: a scalar with a `stdout` field becomes that stdout
with one trailing newline stripped; every other scalar is coerced to text
and escaped by the quoting function. -/
def specSubstScalar (quoteFn : String → String) : Scalar → String
  | .out o => stripTrailingNewline o.stdout
  | .str s => quoteFn s

/-- Per the claim text: arrays are element-wise escaped and joined with
single spaces; scalars follow `specSubstScalar`. -/
def specSubstValue (quoteFn : String → String) : SHValue → String
  | .scalar v => specSubstScalar quoteFn v
  | .arr xs => String.intercalate " " (xs.map (sanitizeArg quoteFn))

/-- The interpolation the claim describes. -/
def specInterpolate (quoteFn : String → String) (t : Template) : String :=
  t.rest.foldl (fun cmd p => cmd ++ specSubstValue quoteFn p.1 ++ p.2.getD "") (t.head.getD "")

/-- Amended substitution: every scalar — a previously resolved Output
included — is coerced to text by its default stringification (for an Output,
the combined buffer trimmed of surrounding whitespace) and escaped by the
quoting function; there is no special stdout-field substitution. -/
def amendedSubstScalar (quoteFn : String → String) : Scalar → String
  | .out o => quoteFn (jsTrim o.combined)
  | .str s => quoteFn s

/-- Amended per-value substitution. -/
def amendedSubstValue (quoteFn : String → String) : SHValue → String
  | .scalar v => amendedSubstScalar quoteFn v
  | .arr xs => String.intercalate " " (xs.map (fun x => quoteFn x.coerce))

/-- The interpolation of the amended claim. -/
def amendedInterpolate (quoteFn : String → String) (t : Template) : String :=
  t.rest.foldl (fun cmd p => cmd ++ amendedSubstValue quoteFn p.1 ++ p.2.getD "") (t.head.getD "")

/-- A concrete single-quoting function used for concrete evaluations. -/
def sqQuote (s : String) : String := "'" ++ s ++ "'"

/-- A concrete previously resolved Output whose stdout and combined buffers
differ (the command also produced stderr). -/
def sampleOut : ProcessOutput :=
  ⟨some 0, none, "hello\n", "x", "hello\nx", ""⟩

/-- A template interpolating that Output: `echo ${sampleOut}`. -/
def sampleTemplate : Template :=
  ⟨some "echo ", [(SHValue.scalar (Scalar.out sampleOut), some "")]⟩

/-! ### Resolution handlers (src/ProcessPromise.js, `run`) -/

/-- JS template display of a `number | null` value. -/
def optIntStr : Option Int → String
  | none => "null"
  | some n => toString n

/-- JS template display of a possibly-undefined string. -/
def optStrStr : Option String → String
  | none => "undefined"
  | some s => s

/-- The diagnostic message built in the `close` handler (lines 369-376):
`exit code: <code>` for a clean exit, otherwise stderr (or a newline),
the call site, the exit code with its optional `exitCodeInfo` description
(JS truthiness: an empty description counts as absent), and the signal when
present. `eci` is the external `exitCodeInfo` collaborator. -/
def closeMessage (eci : Option Int → Option String) (callSite : String)
    (code : Option Int) (signal : Option String) (stderr : String) : String :=
  if code = some 0 ∧ signal = none then
    "exit code: " ++ optIntStr code
  else
    let info := match eci code with
      | some s => if s = "" then "" else " (" ++ s ++ ")"
      | none => ""
    let base := (if stderr = "" then "\n" else stderr) ++ "    at " ++ callSite ++
      "\n    exit code: " ++ optIntStr code ++ info
    match signal with
    | some sig => base ++ "\n    signal: " ++ sig
    | none => base

/-- The `close` handler (lines 368-385): build the Output from the observed
code, signal and the three buffers; resolve when `code === 0` or the nothrow
flag is set, otherwise reject. `Except.ok` models resolution, `Except.error`
rejection. -/
def closeHandler (eci : Option Int → Option String) (callSite : String)
    (nothrow : Bool) (code : Option Int) (signal : Option String)
    (stdout stderr combined : String) : Except ProcessOutput ProcessOutput :=
  let output : ProcessOutput :=
    ⟨code, signal, stdout, stderr, combined, closeMessage eci callSite code signal stderr⟩
  if code = some 0 ∨ nothrow then Except.ok output else Except.error output

/-- A spawn-level error value (`err` of the `error` event). -/
structure SpawnErr where
  message : String
  errno : Option Int
  errCode : Option String
deriving DecidableEq, Repr

/-- The `error` handler (lines 386-393): always reject, with an Output whose
code and signal are null, enriched with the platform errno description.
`errnoMsg` is the external `errnoMessage` collaborator. The nothrow flag is
not consulted. -/
def errorHandler (errnoMsg : Option Int → String) (callSite : String)
    (err : SpawnErr) (stdout stderr combined : String) :
    Except ProcessOutput ProcessOutput :=
  let message := err.message ++ "\n" ++
    "    errno: " ++ optIntStr err.errno ++ " (" ++ errnoMsg err.errno ++ ")\n" ++
    "    code: " ++ optStrStr err.errCode ++ "\n" ++
    "    at " ++ callSite
  Except.error ⟨none, none, stdout, stderr, combined, message⟩

/-! ### The `exitCode` getter (src/ProcessPromise.js lines 455-457) -/

/-- `then(onfulfilled, onrejected)` on a settled promise whose handlers do
not throw: both branches fulfill the derived promise. -/
def thenBoth {A B E F : Type} (onFulfilled : A → B) (onRejected : E → B) :
    Except E A → Except F B
  | .ok a => .ok (onFulfilled a)
  | .error e => .ok (onRejected e)

/-- `get exitCode() { return this.then((p) => p.exitCode, (p) => p.exitCode); }` -/
def exitCodeGetter (settled : Except ProcessOutput ProcessOutput) :
    Except ProcessOutput (Option Int) :=
  thenBoth (fun p => p.exitCode) (fun p => p.exitCode) settled

/-- The Output a settled Task carries, on either branch. -/
def settledOutput : Except ProcessOutput ProcessOutput → ProcessOutput
  | .ok p => p
  | .error p => p

/-! ### `run()` start guard (src/ProcessPromise.js lines 350-352) -/

/-- The Task-side state `run()` consults: the process handle `this.child`
(`none` until a process is spawned) and how many OS processes have been
spawned on the Task's behalf. -/
structure TaskState where
  child : Option Nat
  spawnCount : Nat
deriving DecidableEq, Repr

/-- One call of `run()`: `if (this.child) return this;` — otherwise spawn a
process and store its handle. -/
def runStep (newHandle : Nat) (s : TaskState) : TaskState :=
  if s.child.isSome then s
  else { child := some newHandle, spawnCount := s.spawnCount + 1 }

/-- A freshly created, never-started Task. -/
def TaskState.fresh : TaskState := ⟨none, 0⟩

/-- A sequence of start triggers (explicit start, stream accessor, pipe
wiring, await, scheduler), each invoking `run()`. -/
def runMany (triggers : List Nat) (s : TaskState) : TaskState :=
  triggers.foldl (fun st h => runStep h st) s

/-! ### quiet / verbose flags (src/ProcessPromise.js lines 531-541) -/

/-- The two distinct slots the Task's revisions touch: `quietFlag` is the
private `#quiet` field set by `quiet()` and read by the logging gate;
`quietProp` is the public `_quiet` property that `verbose()` assigns,
initially absent and read by nothing. -/
structure TaskFlags where
  quietFlag : Bool
  quietProp : Option Bool
deriving DecidableEq, Repr

/-- `quiet() { this.#quiet = true; return this; }` -/
def TaskFlags.quiet (s : TaskFlags) : TaskFlags := { s with quietFlag := true }

/-- `verbose() { this._quiet = false; return this; }` -/
def TaskFlags.verbose (s : TaskFlags) : TaskFlags := { s with quietProp := some false }

/-- The logging gate of `run()`: `verbose: ENV.verbose && !this.#quiet`. -/
def logVerbose (envVerbose : Bool) (s : TaskFlags) : Bool := envVerbose && !s.quietFlag

/-! ### `kill` (src/ProcessPromise.js lines 499-515) -/

/-- The child-process handle as `kill` sees it: possibly absent, and its
pid possibly undefined. -/
structure Child where
  pid : Option Nat
deriving DecidableEq, Repr

/-- One attempted signal delivery. -/
structure SendEvent where
  pid : Nat
  signal : String
  delivered : Bool
deriving DecidableEq, Repr

/-- `process.kill(pid, signal)` as an external primitive that may fail
(e.g. the process already exited); `sendOk` says which pids accept it. -/
def trySend (sendOk : Nat → Bool) (pid : Nat) (_signal : String) : Except Unit Unit :=
  if sendOk pid then Except.ok () else Except.error ()

/-- The descendant loop of `kill` (lines 505-510): attempt a send to each
pid in order, each under `try { ... } catch (e) { }` — a failure is
swallowed and the loop continues. -/
def killLoop (sendOk : Nat → Bool) (signal : String) : List Nat → List SendEvent
  | [] => []
  | p :: rest =>
    let attempt := trySend sendOk p signal
    ⟨p, signal, attempt.isOk⟩ :: killLoop sendOk signal rest

/-- `async kill(signal = 'SIGTERM')`: throw when no child handle exists or
its pid is undefined; otherwise signal every descendant pid from the
process-tree lookup (the external `psTree` collaborator), then the root
pid, each send attempted under a failure-swallowing try/catch. The result
is the ordered trace of attempted sends. -/
def killModel (child : Option Child) (psTree : Nat → List Nat)
    (sendOk : Nat → Bool) (signal : String) : Except String (List SendEvent) :=
  match child with
  | none => Except.error "Trying to kill a process without creating one."
  | some c =>
    match c.pid with
    | none => Except.error "The process pid is undefined."
    | some pid =>
      let descendants := killLoop sendOk signal (psTree pid)
      let rootAttempt := trySend sendOk pid signal
      Except.ok (descendants ++ [⟨pid, signal, rootAttempt.isOk⟩])

/-! ### `retry` (src/sh.js lines 163-211), static-delay form -/

/-- The observable behaviour of one `retry` call: how many times the action
was invoked, the sleeps awaited between attempts, and the final outcome —
`Except.error` models the final `throw lastErr`, whose payload is `none`
when no attempt ever ran (`lastErr` still undefined). -/
structure RetryTrace (E A : Type) where
  calls : Nat
  sleeps : List Nat
  result : Except (Option E) A
deriving Repr

/-- The `while (count-- > 0)` loop of `retry` with a static delay. `fuel`
is the remaining `count`; `attempt` the attempts so far; `calls` and
`sleeps` accumulate the trace; `lastErr` mirrors the mutable `lastErr`.
On failure the loop breaks without sleeping when the decremented count hit
zero, else sleeps the static delay when it is nonzero. -/
def retryGo {E A : Type} (delay : Nat) (action : Nat → Except E A) :
    Nat → Nat → Nat → List Nat → Option E → RetryTrace E A
  | 0, _, calls, sleeps, lastErr => ⟨calls, sleeps, Except.error lastErr⟩
  | fuel + 1, attempt, calls, sleeps, _ =>
    match action (attempt + 1) with
    | Except.ok a => ⟨calls + 1, sleeps, Except.ok a⟩
    | Except.error e =>
      if fuel = 0 then
        retryGo delay action 0 (attempt + 1) (calls + 1) sleeps (some e)
      else if 0 < delay then
        retryGo delay action fuel (attempt + 1) (calls + 1) (sleeps ++ [delay]) (some e)
      else
        retryGo delay action fuel (attempt + 1) (calls + 1) sleeps (some e)

/-- `retry(count, delay, action)` with a static delay: run the loop with
`count` as fuel, no attempts yet and an undefined `lastErr`. -/
def retryModel {E A : Type} (count delay : Nat) (action : Nat → Except E A) :
    RetryTrace E A :=
  retryGo delay action count 0 0 [] none

/-! ### `expBackoff` (src/sh.js lines 240-248) -/

/-- `Math.floor(Math.random() * randMs)` for one draw `r` of the random
primitive, whose contract is `0 ≤ r < 1`. -/
def floorDraw (r : ℚ) (randMs : Nat) : Nat := (Int.floor (r * (randMs : ℚ))).toNat

/-- The n-th value the `expBackoff(max, rand)` generator yields, n starting
at 1 and incrementing each time a value is produced:
`Math.min(2 ** n, maxMs) + Math.floor(Math.random() * randMs)`, where
`draw n` is the n-th call of the random primitive. Being a total function
of n, the sequence is infinite. -/
def expBackoffVal (maxMs randMs : Nat) (draw : Nat → ℚ) (n : Nat) : Nat :=
  min (2 ^ n) maxMs + floorDraw (draw n) randMs

/-! ### Execution Context Store and `within` (src/sh.js lines 34-136)

The store is the only shared mutable resource: `defaults` is one object,
and each `within` scope owns the object `storage.run` was given. We model
the objects in a heap addressed by references; `defaults` lives at
reference 0, `{ ...getStore() }` is an allocation of a fresh reference
holding a value copy. -/

/-- A context object: ordered key–value pairs (cwd, env, shell, ...). -/
abbrev Ctx := List (String × String)

/-- Property assignment on a plain object (`Reflect.set`): overwrite the
property when present, else append it. -/
def ctxSet (c : Ctx) (k v : String) : Ctx :=
  match c with
  | [] => [(k, v)]
  | (k', v') :: rest => if k' = k then (k, v) :: rest else (k', v') :: ctxSet rest k v

/-- A sequence of property assignments on one object. -/
def ctxSets (c : Ctx) (l : List (String × String)) : Ctx :=
  l.foldl (fun c kv => ctxSet c kv.1 kv.2) c

/-- The heap of live context objects. -/
abbrev Heap := List (Nat × Ctx)

/-- The references the heap holds. -/
def heapDom (h : Heap) : List Nat := h.map Prod.fst

/-- Read the object at a reference. -/
def heapGet (h : Heap) (r : Nat) : Ctx :=
  match h with
  | [] => []
  | p :: t => if p.1 = r then p.2 else heapGet t r

/-- Mutate the object at a reference in place. -/
def heapSet (h : Heap) (r : Nat) (c : Ctx) : Heap :=
  match h with
  | [] => []
  | p :: t => (if p.1 = r then (r, c) else p) :: heapSet t r c

/-- A reference no live object uses. -/
def freshRef (h : Heap) : Nat := (heapDom h).foldr max 0 + 1

/-- Allocate a new object. -/
def alloc (h : Heap) (c : Ctx) : Heap × Nat :=
  (h ++ [(freshRef h, c)], freshRef h)

/-- `getStore()`: the innermost active scope if one exists, else the
defaults (reference 0). -/
def getStoreRef (scope : Option Nat) : Nat := scope.getD 0

/-- `within(callback)` runs the callback under a NEW store object holding a
shallow copy of the current one: `storage.run({ ...getStore() }, callback)`. -/
def withinAlloc (h : Heap) (scope : Option Nat) : Heap × Nat :=
  alloc h (heapGet h (getStoreRef scope))

/-- `SH.key = value` while `scopeRef` is the active store:
`Reflect.set(getStore(), key, value)` mutates that object in place. -/
def shSet (h : Heap) (scopeRef : Nat) (k v : String) : Heap :=
  heapSet h scopeRef (ctxSet (heapGet h scopeRef) k v)

/-- One step of an interleaving of two sibling concurrent scopes: a context
assignment made inside the first or inside the second. -/
inductive SibOp where
  | set1 (k v : String)
  | set2 (k v : String)

/-- Run an interleaved trace of assignments by two sibling scopes whose
store objects are `r1` and `r2`. -/
def runSib (r1 r2 : Nat) : Heap → List SibOp → Heap
  | h, [] => h
  | h, SibOp.set1 k v :: t => runSib r1 r2 (shSet h r1 k v) t
  | h, SibOp.set2 k v :: t => runSib r1 r2 (shSet h r2 k v) t

/-- The assignments the first scope makes, in order. -/
def ops1 : List SibOp → List (String × String)
  | [] => []
  | SibOp.set1 k v :: t => (k, v) :: ops1 t
  | SibOp.set2 _ _ :: t => ops1 t

/-- The assignments the second scope makes, in order. -/
def ops2 : List SibOp → List (String × String)
  | [] => []
  | SibOp.set1 _ _ :: t => ops2 t
  | SibOp.set2 k v :: t => (k, v) :: ops2 t

end Sh

/-! ### Theorems -/

namespace Sh

/-- C2 counterexample: interpolating a previously resolved Output whose
stdout and combined buffers differ, the code quotes the Output's trimmed
combined text instead of substituting the stdout text with one trailing
newline stripped, so the built command differs from the one the claim
describes. -/
theorem substitution_stdout_counterexample :
    interpolate sqQuote sampleTemplate ≠ specInterpolate sqQuote sampleTemplate := by
  decide

/-- C2 (amended): array interpolations are element-wise escaped and joined
with single spaces; every scalar interpolation — a previously resolved
Output included — is coerced to text by its default stringification (for an
Output, the combined buffer trimmed) and escaped by the quoting function;
there is no stdout-field substitution. -/
theorem substitution_amended (quoteFn : String → String) (t : Template) :
    interpolate quoteFn t = amendedInterpolate quoteFn t := by
  have h : substValue quoteFn = amendedSubstValue quoteFn := by
    funext v
    cases v with
    | scalar s => cases s <;> rfl
    | arr xs => rfl
  unfold interpolate amendedInterpolate
  rw [h]

/-- C6: a command template whose literal fragments are all defined never
throws — construction yields the interpolated command; any undefined
fragment throws `Malformed command at <call site>` at construction time. -/
theorem malformed_command (quoteFn : String → String) (callSite : String) (t : Template) :
    ((∀ p ∈ t.pieces, p ≠ none) →
      buildCmd quoteFn callSite t = Except.ok (interpolate quoteFn t)) ∧
    ((∃ p ∈ t.pieces, p = none) →
      buildCmd quoteFn callSite t = Except.error ("Malformed command at " ++ callSite)) := by
  constructor
  · intro h
    have hfalse : t.pieces.any Option.isNone = false := by
      simp only [List.any_eq_false]
      intro p hp
      have := h p hp
      cases p with
      | none => exact absurd rfl this
      | some s => simp [Option.isNone]
    simp [buildCmd, hfalse]
  · rintro ⟨p, hp, rfl⟩
    have htrue : t.pieces.any Option.isNone = true := by
      exact List.any_eq_true.mpr ⟨none, hp, rfl⟩
    simp [buildCmd, htrue]

/-- Witness for C6 at concrete templates. -/
theorem malformed_command_witness :
    buildCmd sqQuote "site" ⟨some "ls", []⟩ = Except.ok "ls" ∧
    buildCmd sqQuote "site" ⟨none, []⟩ = Except.error "Malformed command at site" := by
  constructor
  · have h := (malformed_command sqQuote "site" ⟨some "ls", []⟩).1 (by decide)
    simpa using h
  · exact (malformed_command sqQuote "site" ⟨none, []⟩).2 ⟨none, by decide⟩

/-- C1: on process exit, the Output carries the observed code, signal and
the stdout/stderr/combined buffers; the Task resolves when the code is 0 or
the nothrow flag is set, rejects otherwise; a spawn-level error always
rejects, nothrow notwithstanding, with code and signal both null. -/
theorem resolution_policy (eci : Option Int → Option String)
    (errnoMsg : Option Int → String) (callSite : String) (nothrow : Bool)
    (code : Option Int) (signal : Option String) (stdout stderr combined : String)
    (err : SpawnErr) :
    ((code = some 0 ∨ nothrow = true) →
      closeHandler eci callSite nothrow code signal stdout stderr combined =
        Except.ok ⟨code, signal, stdout, stderr, combined,
          closeMessage eci callSite code signal stderr⟩) ∧
    ((code ≠ some 0 ∧ nothrow = false) →
      closeHandler eci callSite nothrow code signal stdout stderr combined =
        Except.error ⟨code, signal, stdout, stderr, combined,
          closeMessage eci callSite code signal stderr⟩) ∧
    (∃ out : ProcessOutput,
      errorHandler errnoMsg callSite err stdout stderr combined = Except.error out ∧
      out.exitCode = none ∧ out.signal = none ∧
      out.stdout = stdout ∧ out.stderr = stderr ∧ out.combined = combined) := by
  refine ⟨fun h => ?_, fun h => ?_, ?_⟩
  · have hcond : code = some 0 ∨ nothrow := by
      rcases h with h | h
      · exact Or.inl h
      · exact Or.inr (by simp [h])
    simp [closeHandler, hcond]
  · have hcond : ¬(code = some 0 ∨ nothrow = true) := by
      rintro (hc | hb)
      · exact h.1 hc
      · rw [h.2] at hb
        exact Bool.false_ne_true hb
    simp only [closeHandler]
    rw [if_neg hcond]
  · exact ⟨_, rfl, rfl, rfl, rfl, rfl, rfl⟩

/-- Witness for C1: a clean exit resolves, a nonzero exit without nothrow
rejects, both carrying the buffers. -/
theorem resolution_policy_witness :
    closeHandler (fun _ => none) "site" false (some 0) none "hi\n" "" "hi\n" =
      Except.ok ⟨some 0, none, "hi\n", "", "hi\n",
        closeMessage (fun _ => none) "site" (some 0) none ""⟩ ∧
    closeHandler (fun _ => none) "site" false (some 1) none "" "e" "e" =
      Except.error ⟨some 1, none, "", "e", "e",
        closeMessage (fun _ => none) "site" (some 1) none "e"⟩ := by
  constructor
  · exact (resolution_policy (fun _ => none) (fun _ => "") "site" false (some 0) none
      "hi\n" "" "hi\n" ⟨"m", none, none⟩).1 (Or.inl rfl)
  · exact (resolution_policy (fun _ => none) (fun _ => "") "site" false (some 1) none
      "" "e" "e" ⟨"m", none, none⟩).2.1 ⟨by decide, rfl⟩

/-- C10: awaiting the `exitCode` property always fulfills, never rejects —
it yields the settled Output's exit code on the resolved branch and on the
rejected branch alike. -/
theorem exitCode_always_fulfills (settled : Except ProcessOutput ProcessOutput) :
    exitCodeGetter settled = Except.ok (settledOutput settled).exitCode := by
  cases settled <;> rfl

/-- Once started, every further `run()` is a no-op returning the same state. -/
theorem runMany_started (triggers : List Nat) :
    ∀ s : TaskState, s.child.isSome → runMany triggers s = s := by
  induction triggers with
  | nil => intro s _; rfl
  | cons h t ih =>
    intro s hs
    have hstep : runStep h s = s := by simp [runStep, hs]
    simpa [runMany, hstep] using ih s hs

/-- C9: `start()` is idempotent — once a process handle exists a further
call is a no-op returning the same state, a second call after any first
call changes nothing, and however many start triggers fire on a fresh Task
it spawns at most one OS process. -/
theorem start_idempotent (s : TaskState) (h h' c n : Nat) (triggers : List Nat) :
    runStep h ⟨some c, n⟩ = ⟨some c, n⟩ ∧
    runStep h' (runStep h s) = runStep h s ∧
    (runMany triggers TaskState.fresh).spawnCount ≤ 1 := by
  refine ⟨by simp [runStep], ?_, ?_⟩
  · rcases hs : s.child with _ | c'
    · have h1 : runStep h s = { child := some h, spawnCount := s.spawnCount + 1 } := by
        simp [runStep, hs]
      rw [h1]
      simp [runStep]
    · have h1 : runStep h s = s := by simp [runStep, hs]
      rw [h1]
      simp [runStep, hs]
  · cases triggers with
    | nil => simp [runMany, TaskState.fresh]
    | cons t ts =>
      have h1 : runStep t TaskState.fresh = ⟨some t, 1⟩ := by
        simp [runStep, TaskState.fresh]
      have h2 : runMany ts (⟨some t, 1⟩ : TaskState) = ⟨some t, 1⟩ :=
        runMany_started ts ⟨some t, 1⟩ (by simp)
      simp [runMany] at h2 ⊢
      rw [h1, h2]

/-- C8 (code bug): after `task.quiet().verbose()` the private `#quiet` flag
read by the logging gate is still set — `verbose()` wrote the unrelated
public `_quiet` property — so with ambient verbose on, log output stays
suppressed, against the specified contract. -/
theorem verbose_leaves_quiet_set :
    ((TaskFlags.mk false none).quiet.verbose).quietFlag = true ∧
    ((TaskFlags.mk false none).quiet.verbose).quietProp = some false ∧
    logVerbose true ((TaskFlags.mk false none).quiet.verbose) = false := by
  decide

/-- The descendant loop visits exactly the looked-up pids, in order, with
the requested signal, whatever the individual send outcomes. -/
theorem killLoop_trace (sendOk : Nat → Bool) (signal : String) (l : List Nat) :
    (killLoop sendOk signal l).map SendEvent.pid = l ∧
    ∀ e ∈ killLoop sendOk signal l, e.signal = signal := by
  induction l with
  | nil => exact ⟨rfl, by intro e he; cases he⟩
  | cons p rest ih =>
    refine ⟨by simp [killLoop, ih.1], ?_⟩
    intro e he
    simp only [killLoop, List.mem_cons] at he
    rcases he with rfl | he
    · rfl
    · exact ih.2 e he

/-- C5: with a child handle and a known pid, `kill(signal)` signals every
descendant pid from the process-tree lookup first, in order and regardless
of individual send failures, and the root pid last; without a child handle
or with an undefined pid it throws. -/
theorem kill_order (psTree : Nat → List Nat) (sendOk : Nat → Bool)
    (signal : String) (pid : Nat) :
    (∃ evs, killModel (some ⟨some pid⟩) psTree sendOk signal = Except.ok evs ∧
      evs.map SendEvent.pid = psTree pid ++ [pid] ∧
      ∀ e ∈ evs, e.signal = signal) ∧
    killModel none psTree sendOk signal =
      Except.error "Trying to kill a process without creating one." ∧
    killModel (some ⟨none⟩) psTree sendOk signal =
      Except.error "The process pid is undefined." := by
  refine ⟨⟨_, rfl, ?_, ?_⟩, rfl, rfl⟩
  · simp [(killLoop_trace sendOk signal (psTree pid)).1]
  · intro e he
    simp only [List.mem_append, List.mem_singleton] at he
    rcases he with he | rfl
    · exact (killLoop_trace sendOk signal (psTree pid)).2 e he
    · rfl

/-- Witness for C5 at a concrete pid, tree and failure pattern: descendants
8 and 9 are signalled before the root 7, even though the send to 8 fails. -/
theorem kill_order_witness :
    ∃ evs, killModel (some ⟨some 7⟩) (fun _ => [8, 9]) (fun p => decide (p ≠ 8))
        "SIGTERM" = Except.ok evs ∧
      evs.map SendEvent.pid = [8, 9] ++ [7] ∧
      ∀ e ∈ evs, e.signal = "SIGTERM" := by
  exact (kill_order (fun _ => [8, 9]) (fun p => decide (p ≠ 8)) "SIGTERM" 7).1

/-- The retry loop performs at most `fuel` further invocations. -/
theorem retryGo_calls_le {E A : Type} (d : Nat) (action : Nat → Except E A) :
    ∀ fuel attempt calls sleeps lastErr,
      (retryGo d action fuel attempt calls sleeps lastErr).calls ≤ calls + fuel := by
  intro fuel
  induction fuel with
  | zero => intro attempt calls sleeps lastErr; simp [retryGo]
  | succ k ih =>
    intro attempt calls sleeps lastErr
    simp only [retryGo]
    rcases haction : action (attempt + 1) with e | a
    · simp only []
      by_cases hk : k = 0
      · subst hk
        simp
      · rw [if_neg hk]
        by_cases hd : 0 < d
        · rw [if_pos hd]
          have := ih (attempt + 1) (calls + 1) (sleeps ++ [d]) (some e)
          omega
        · rw [if_neg hd]
          have := ih (attempt + 1) (calls + 1) sleeps (some e)
          omega
    · simp

/-- Every sleep the retry loop adds is exactly the static delay. -/
theorem retryGo_sleeps {E A : Type} (d : Nat) (action : Nat → Except E A) :
    ∀ fuel attempt calls sleeps lastErr,
      ∀ x ∈ (retryGo d action fuel attempt calls sleeps lastErr).sleeps,
        x ∈ sleeps ∨ x = d := by
  intro fuel
  induction fuel with
  | zero =>
    intro attempt calls sleeps lastErr x hx
    simp only [retryGo] at hx
    exact Or.inl hx
  | succ k ih =>
    intro attempt calls sleeps lastErr x hx
    simp only [retryGo] at hx
    rcases haction : action (attempt + 1) with e | a <;> rw [haction] at hx <;>
      simp only [] at hx
    · by_cases hk : k = 0
      · subst hk
        simp only [if_pos rfl] at hx
        exact Or.inl hx
      · rw [if_neg hk] at hx
        by_cases hd : 0 < d
        · rw [if_pos hd] at hx
          rcases ih (attempt + 1) (calls + 1) (sleeps ++ [d]) (some e) x hx with h | h
          · simp only [List.mem_append, List.mem_singleton] at h
            rcases h with h | rfl
            · exact Or.inl h
            · exact Or.inr rfl
          · exact Or.inr h
        · rw [if_neg hd] at hx
          exact ih (attempt + 1) (calls + 1) sleeps (some e) x hx
    · exact Or.inl hx

/-- When every remaining attempt fails, the loop exhausts its fuel, sleeps
the static delay between consecutive attempts (when it is nonzero), and
ends by throwing the failure of the last attempt. -/
theorem retryGo_allfail {E A : Type} (d : Nat) (action : Nat → Except E A) (elast : E) :
    ∀ fuel attempt calls sleeps lastErr, 1 ≤ fuel →
      (∀ i, attempt < i → i ≤ attempt + fuel → ∃ e, action i = Except.error e) →
      action (attempt + fuel) = Except.error elast →
      retryGo d action fuel attempt calls sleeps lastErr =
        ⟨calls + fuel,
         sleeps ++ (if 0 < d then List.replicate (fuel - 1) d else []),
         Except.error (some elast)⟩ := by
  intro fuel
  induction fuel with
  | zero => intro attempt calls sleeps lastErr hfuel; omega
  | succ k ih =>
    intro attempt calls sleeps lastErr _ hfail hlast
    obtain ⟨e₁, he₁⟩ := hfail (attempt + 1) (by omega) (by omega)
    simp only [retryGo, he₁]
    by_cases hk : k = 0
    · subst hk
      have h2 : action (attempt + 1) = Except.error elast := by simpa using hlast
      have helast : e₁ = elast := by
        rw [he₁] at h2
        exact (Except.error.injEq _ _).mp h2
      simp [if_pos rfl, retryGo, helast]
    · rw [if_neg hk]
      have hk1 : 1 ≤ k := by omega
      have hshift : ∀ i, attempt + 1 < i → i ≤ attempt + 1 + k →
          ∃ e, action i = Except.error e := by
        intro i h1 h2
        exact hfail i (by omega) (by omega)
      have hlast' : action (attempt + 1 + k) = Except.error elast := by
        rw [show attempt + 1 + k = attempt + (k + 1) by omega]
        exact hlast
      by_cases hd : 0 < d
      · rw [if_pos hd]
        rw [ih (attempt + 1) (calls + 1) (sleeps ++ [d]) (some e₁) hk1 hshift hlast']
        have hrep : [d] ++ List.replicate (k - 1) d = List.replicate k d := by
          have : k = (k - 1) + 1 := by omega
          rw [this, List.replicate_succ]
          rfl
        congr 1
        · omega
        · rw [if_pos hd, if_pos hd, List.append_assoc, hrep]
          have hkk : k + 1 - 1 = k := by omega
          rw [hkk]
      · rw [if_neg hd]
        rw [ih (attempt + 1) (calls + 1) sleeps (some e₁) hk1 hshift hlast']
        congr 1
        · omega
        · rw [if_neg hd, if_neg hd]

/-- C4: `retry(n, d, action)` with a static delay invokes the action at
most `n` times; every inter-attempt wait equals the delay (so is at least
`d`); and when all `n` attempts fail it makes exactly `n` invocations,
waits `d` between each consecutive pair (when `d` is nonzero), and throws
the exact failure value of the last attempt, never a new error. -/
theorem retry_spec {E A : Type} (n d : Nat) (action : Nat → Except E A) (elast : E)
    (hn : 1 ≤ n) :
    (retryModel n d action).calls ≤ n ∧
    (∀ x ∈ (retryModel n d action).sleeps, x = d) ∧
    ((∀ i, 1 ≤ i → i ≤ n → ∃ e, action i = Except.error e) →
      action n = Except.error elast →
      (retryModel n d action).result = Except.error (some elast) ∧
      (retryModel n d action).calls = n ∧
      (0 < d → (retryModel n d action).sleeps = List.replicate (n - 1) d)) := by
  refine ⟨?_, ?_, ?_⟩
  · simpa using retryGo_calls_le d action n 0 0 [] none
  · intro x hx
    rcases retryGo_sleeps d action n 0 0 [] none x hx with h | h
    · cases h
    · exact h
  · intro hfail hlast
    have h := retryGo_allfail d action elast n 0 0 [] none hn
      (by intro i h1 h2; exact hfail i h1 (by omega)) (by simpa using hlast)
    refine ⟨?_, ?_, ?_⟩
    · rw [retryModel, h]
    · rw [retryModel, h]
      simp
    · intro hd
      rw [retryModel, h]
      simp [hd]

/-- Witness for C4: two attempts that both fail with the string `boom`,
delay 5 — two calls, one sleep of 5, and the final throw is that exact
failure. -/
theorem retry_spec_witness :
    (retryModel 2 5 (fun _ => (Except.error "boom" : Except String Nat))).result =
      Except.error (some "boom") ∧
    (retryModel 2 5 (fun _ => (Except.error "boom" : Except String Nat))).calls = 2 ∧
    (retryModel 2 5 (fun _ => (Except.error "boom" : Except String Nat))).sleeps = [5] := by
  have h := retry_spec 2 5 (fun _ => (Except.error "boom" : Except String Nat)) "boom"
    (by decide)
  have h3 := h.2.2 (fun i _ _ => ⟨"boom", rfl⟩) rfl
  exact ⟨h3.1, h3.2.1, by simpa using h3.2.2 (by decide)⟩

/-- C7 counterexample: with `rand = 0` the claimed half-open interval
`[min(2^n, max), min(2^n, max) + rand)` is empty, yet the generator yields
`min(2^n, max)` — at `max = 60000`, `rand = 0`, draw 0, n = 1 the first
value is 2, which does not lie in `[2, 2)`. -/
theorem expBackoff_interval_counterexample :
    ¬ (min (2 ^ 1) 60000 ≤ expBackoffVal 60000 0 (fun _ => 0) 1 ∧
       expBackoffVal 60000 0 (fun _ => 0) 1 < min (2 ^ 1) 60000 + 0) := by
  have hv : expBackoffVal 60000 0 (fun _ => 0) 1 = 2 := by
    simp [expBackoffVal, floorDraw]
  rw [hv]
  omega

/-- C7 (amended): for every max and rand duration and every draw in
`[0, 1)`, the n-th yielded value lies in
`[min(2^n, max), min(2^n, max) + rand)` whenever `rand` is positive, and
equals `min(2^n, max)` when `rand = 0`. -/
theorem expBackoff_interval_amended (maxMs randMs n : Nat) (draw : Nat → ℚ)
    (_h0 : 0 ≤ draw n) (h1 : draw n < 1) :
    (0 < randMs →
      min (2 ^ n) maxMs ≤ expBackoffVal maxMs randMs draw n ∧
      expBackoffVal maxMs randMs draw n < min (2 ^ n) maxMs + randMs) ∧
    (randMs = 0 → expBackoffVal maxMs randMs draw n = min (2 ^ n) maxMs) := by
  constructor
  · intro hr
    refine ⟨Nat.le_add_right _ _, ?_⟩
    have hflt : Int.floor (draw n * (randMs : ℚ)) < (randMs : ℤ) := by
      apply Int.floor_lt.mpr
      push_cast
      exact mul_lt_of_lt_one_left (by exact_mod_cast hr) h1
    have hlt : floorDraw (draw n) randMs < randMs := by
      unfold floorDraw
      omega
    unfold expBackoffVal
    omega
  · intro hr
    subst hr
    simp [expBackoffVal, floorDraw]

/-- Witness for the amended C7 at `max = 60000`, `rand = 100`,
draw `1/2`, n = 3: the value is 58 and lies in `[8, 108)`. -/
theorem expBackoff_interval_witness :
    min (2 ^ 3) 60000 ≤ expBackoffVal 60000 100 (fun _ => 1/2) 3 ∧
    expBackoffVal 60000 100 (fun _ => 1/2) 3 < min (2 ^ 3) 60000 + 100 := by
  exact (expBackoff_interval_amended 60000 100 3 (fun _ => 1/2)
    (by norm_num) (by norm_num)).1 (by norm_num)

/-! Heap lemmas for the context store. -/

/-- Every live reference is below the fresh one. -/
theorem mem_lt_freshRef (h : Heap) : ∀ r ∈ heapDom h, r < freshRef h := by
  have hle : ∀ l : List Nat, ∀ r ∈ l, r ≤ l.foldr max 0 := by
    intro l
    induction l with
    | nil => intro r hr; cases hr
    | cons a t ih =>
      intro r hr
      rcases List.mem_cons.mp hr with rfl | hr
      · exact le_max_left _ _
      · exact le_trans (ih r hr) (le_max_right _ _)
  intro r hr
  have := hle (heapDom h) r hr
  unfold freshRef
  omega

/-- The fresh reference is not live. -/
theorem freshRef_not_mem (h : Heap) : freshRef h ∉ heapDom h :=
  fun hmem => absurd (mem_lt_freshRef h _ hmem) (lt_irrefl _)

theorem heapDom_append (h t : Heap) : heapDom (h ++ t) = heapDom h ++ heapDom t := by
  simp [heapDom]

theorem heapGet_append_left (h t : Heap) (r : Nat) (hr : r ∈ heapDom h) :
    heapGet (h ++ t) r = heapGet h r := by
  induction h with
  | nil => cases hr
  | cons p ps ih =>
    by_cases hp : p.1 = r
    · simp [heapGet, hp]
    · have hr' : r ∈ heapDom ps := by
        simp only [heapDom, List.map_cons, List.mem_cons] at hr
        rcases hr with h1 | h1
        · exact absurd h1.symm hp
        · exact h1
      simp [heapGet, hp, ih hr']

theorem heapGet_append_right (h t : Heap) (r : Nat) (hr : r ∉ heapDom h) :
    heapGet (h ++ t) r = heapGet t r := by
  induction h with
  | nil => rfl
  | cons p ps ih =>
    have hp : ¬ p.1 = r := by
      intro hp
      exact hr (by simp [heapDom, List.mem_cons, hp])
    have hr' : r ∉ heapDom ps := by
      intro h2
      exact hr (by simp only [heapDom, List.map_cons, List.mem_cons]; right; exact h2)
    simp [heapGet, hp, ih hr']

theorem heapGet_heapSet_ne (h : Heap) (r r' : Nat) (c : Ctx) (hne : r ≠ r') :
    heapGet (heapSet h r' c) r = heapGet h r := by
  induction h with
  | nil => rfl
  | cons p ps ih =>
    by_cases hp : p.1 = r'
    · simp [heapSet, heapGet, hp, Ne.symm hne, ih]
    · by_cases hpr : p.1 = r
      · simp [heapSet, heapGet, hp, hpr, hne]
      · simp [heapSet, heapGet, hp, hpr, ih]

theorem heapGet_heapSet_self (h : Heap) (r : Nat) (c : Ctx) (hr : r ∈ heapDom h) :
    heapGet (heapSet h r c) r = c := by
  induction h with
  | nil => cases hr
  | cons p ps ih =>
    by_cases hp : p.1 = r
    · simp [heapSet, heapGet, hp]
    · have hr' : r ∈ heapDom ps := by
        simp only [heapDom, List.map_cons, List.mem_cons] at hr
        rcases hr with h1 | h1
        · exact absurd h1.symm hp
        · exact h1
      simp [heapSet, heapGet, hp, ih hr']

theorem heapDom_heapSet (h : Heap) (r : Nat) (c : Ctx) :
    heapDom (heapSet h r c) = heapDom h := by
  induction h with
  | nil => rfl
  | cons p ps ih =>
    by_cases hp : p.1 = r
    · simp only [heapSet, heapDom, List.map_cons, if_pos hp]
      simp only [heapDom] at ih
      rw [ih, hp]
    · simp only [heapSet, heapDom, List.map_cons, if_neg hp]
      simp only [heapDom] at ih
      rw [ih]

theorem heapGet_shSet_ne (h : Heap) (r r' : Nat) (k v : String) (hne : r ≠ r') :
    heapGet (shSet h r' k v) r = heapGet h r :=
  heapGet_heapSet_ne _ _ _ _ hne

theorem heapGet_shSet_self (h : Heap) (r : Nat) (k v : String) (hr : r ∈ heapDom h) :
    heapGet (shSet h r k v) r = ctxSet (heapGet h r) k v :=
  heapGet_heapSet_self _ _ _ hr

theorem heapDom_shSet (h : Heap) (r : Nat) (k v : String) :
    heapDom (shSet h r k v) = heapDom h :=
  heapDom_heapSet _ _ _

/-- A reference distinct from both scopes' is untouched by the trace. -/
theorem heapGet_runSib_other (r1 r2 r : Nat) (t : List SibOp)
    (h1 : r ≠ r1) (h2 : r ≠ r2) :
    ∀ h, heapGet (runSib r1 r2 h t) r = heapGet h r := by
  induction t with
  | nil => intro h; rfl
  | cons op t ih =>
    intro h
    cases op with
    | set1 k v =>
      show heapGet (runSib r1 r2 (shSet h r1 k v) t) r = heapGet h r
      rw [ih (shSet h r1 k v), heapGet_shSet_ne _ _ _ _ _ h1]
    | set2 k v =>
      show heapGet (runSib r1 r2 (shSet h r2 k v) t) r = heapGet h r
      rw [ih (shSet h r2 k v), heapGet_shSet_ne _ _ _ _ _ h2]

/-- The first scope's object ends as its start value updated by exactly its
own assignments, whatever the second scope interleaves. -/
theorem heapGet_runSib_scope1 (r1 r2 : Nat) (hne : r1 ≠ r2) (t : List SibOp) :
    ∀ h, r1 ∈ heapDom h →
      heapGet (runSib r1 r2 h t) r1 = ctxSets (heapGet h r1) (ops1 t) := by
  induction t with
  | nil => intro h _; rfl
  | cons op t ih =>
    intro h hdom
    cases op with
    | set1 k v =>
      show heapGet (runSib r1 r2 (shSet h r1 k v) t) r1 =
        ctxSets (heapGet h r1) ((k, v) :: ops1 t)
      have hdom' : r1 ∈ heapDom (shSet h r1 k v) := by
        rw [heapDom_shSet]; exact hdom
      rw [ih _ hdom', heapGet_shSet_self _ _ _ _ hdom]
      rfl
    | set2 k v =>
      show heapGet (runSib r1 r2 (shSet h r2 k v) t) r1 =
        ctxSets (heapGet h r1) (ops1 t)
      have hdom' : r1 ∈ heapDom (shSet h r2 k v) := by
        rw [heapDom_shSet]; exact hdom
      rw [ih _ hdom', heapGet_shSet_ne _ _ _ _ _ hne]

/-- Symmetric statement for the second scope. -/
theorem heapGet_runSib_scope2 (r1 r2 : Nat) (hne : r2 ≠ r1) (t : List SibOp) :
    ∀ h, r2 ∈ heapDom h →
      heapGet (runSib r1 r2 h t) r2 = ctxSets (heapGet h r2) (ops2 t) := by
  induction t with
  | nil => intro h _; rfl
  | cons op t ih =>
    intro h hdom
    cases op with
    | set1 k v =>
      show heapGet (runSib r1 r2 (shSet h r1 k v) t) r2 =
        ctxSets (heapGet h r2) (ops2 t)
      have hdom' : r2 ∈ heapDom (shSet h r1 k v) := by
        rw [heapDom_shSet]; exact hdom
      rw [ih _ hdom', heapGet_shSet_ne _ _ _ _ _ hne]
    | set2 k v =>
      show heapGet (runSib r1 r2 (shSet h r2 k v) t) r2 =
        ctxSets (heapGet h r2) ((k, v) :: ops2 t)
      have hdom' : r2 ∈ heapDom (shSet h r2 k v) := by
        rw [heapDom_shSet]; exact hdom
      rw [ih _ hdom', heapGet_shSet_self _ _ _ _ hdom]
      rfl

/-- C3: two-run noninterference of sibling `within` scopes. Starting from
any store heap whose defaults (reference 0) and parent store exist, create
two sibling scopes by `within`'s copy, then run any interleaved trace of
context assignments made inside the two scopes: each scope's final context
is the parent snapshot updated by exactly its own assignments — the
sibling's assignments are invisible to it — and neither the parent's
object nor the ambient defaults changed. -/
theorem within_noninterference (h0 : Heap) (parent : Option Nat) (trace : List SibOp)
    (hparent : getStoreRef parent ∈ heapDom h0) (hzero : 0 ∈ heapDom h0) :
    ∀ h1 r1 h2 r2, withinAlloc h0 parent = (h1, r1) →
      withinAlloc h1 parent = (h2, r2) →
      heapGet (runSib r1 r2 h2 trace) r1 =
        ctxSets (heapGet h0 (getStoreRef parent)) (ops1 trace) ∧
      heapGet (runSib r1 r2 h2 trace) r2 =
        ctxSets (heapGet h0 (getStoreRef parent)) (ops2 trace) ∧
      heapGet (runSib r1 r2 h2 trace) (getStoreRef parent) =
        heapGet h0 (getStoreRef parent) ∧
      heapGet (runSib r1 r2 h2 trace) 0 = heapGet h0 0 := by
  intro h1 r1 h2 r2 e1 e2
  unfold withinAlloc alloc at e1 e2
  injection e1 with eh1 er1
  subst eh1
  subst er1
  injection e2 with eh2 er2
  subst eh2
  subst er2
  set pref := getStoreRef parent with hpref
  set c0 := heapGet h0 pref with hc0
  set r1 := freshRef h0 with hr1
  set h1 := h0 ++ [(r1, c0)] with hh1
  set r2 := freshRef h1 with hr2
  set h2 := h1 ++ [(r2, heapGet h1 pref)] with hh2
  have hprefr1 : pref ≠ r1 := Nat.ne_of_lt (mem_lt_freshRef h0 pref hparent)
  have hdom1 : heapDom h1 = heapDom h0 ++ [r1] := by
    rw [hh1, heapDom_append]; rfl
  have hr1mem1 : r1 ∈ heapDom h1 := by
    rw [hdom1]; simp
  have hprefmem1 : pref ∈ heapDom h1 := by
    rw [hdom1]; exact List.mem_append_left _ hparent
  have hzeromem1 : 0 ∈ heapDom h1 := by
    rw [hdom1]; exact List.mem_append_left _ hzero
  have hr1r2 : r1 ≠ r2 := Nat.ne_of_lt (mem_lt_freshRef h1 r1 hr1mem1)
  have hprefr2 : pref ≠ r2 := Nat.ne_of_lt (mem_lt_freshRef h1 pref hprefmem1)
  have hzeror1 : (0 : Nat) ≠ r1 := Nat.ne_of_lt (mem_lt_freshRef h0 0 hzero)
  have hzeror2 : (0 : Nat) ≠ r2 := Nat.ne_of_lt (mem_lt_freshRef h1 0 hzeromem1)
  have hdom2 : heapDom h2 = heapDom h1 ++ [r2] := by
    rw [hh2, heapDom_append]; rfl
  have hr1mem2 : r1 ∈ heapDom h2 := by
    rw [hdom2]; exact List.mem_append_left _ hr1mem1
  have hr2mem2 : r2 ∈ heapDom h2 := by
    rw [hdom2]; simp
  have hget1pref : heapGet h1 pref = c0 := by
    rw [hh1]; exact heapGet_append_left _ _ _ hparent
  have hget2r1 : heapGet h2 r1 = c0 := by
    rw [hh2, heapGet_append_left _ _ _ hr1mem1, hh1,
      heapGet_append_right _ _ _ (freshRef_not_mem h0)]
    simp [heapGet]
  have hget2r2 : heapGet h2 r2 = c0 := by
    rw [hh2, heapGet_append_right _ _ _ (freshRef_not_mem h1)]
    simp [heapGet, hget1pref]
  have hget2pref : heapGet h2 pref = c0 := by
    rw [hh2, heapGet_append_left _ _ _ hprefmem1, hget1pref]
  have hget2zero : heapGet h2 0 = heapGet h0 0 := by
    rw [hh2, heapGet_append_left _ _ _ hzeromem1, hh1,
      heapGet_append_left _ _ _ hzero]
  refine ⟨?_, ?_, ?_, ?_⟩
  · rw [heapGet_runSib_scope1 r1 r2 hr1r2 trace h2 hr1mem2, hget2r1]
  · rw [heapGet_runSib_scope2 r1 r2 (Ne.symm hr1r2) trace h2 hr2mem2, hget2r2]
  · rw [heapGet_runSib_other r1 r2 pref trace hprefr1 hprefr2 h2, hget2pref, hc0]
  · rw [heapGet_runSib_other r1 r2 0 trace hzeror1 hzeror2 h2, hget2zero]

/-- A demonstration heap: only the defaults object, at reference 0. -/
def demoHeap : Heap := [(0, [("verbose", "false")])]

/-- A demonstration interleaving: the two sibling scopes each assign the
same key to different values, interleaved. -/
def demoTrace : List SibOp :=
  [SibOp.set1 "processCwd" "/a", SibOp.set2 "processCwd" "/b",
   SibOp.set1 "shell" "/bin/bash"]

/-- Witness for C3 at a concrete heap and trace: each sibling sees only its
own assignments; the defaults object is untouched. -/
theorem within_noninterference_witness :
    heapGet (runSib (withinAlloc demoHeap none).2
        (withinAlloc (withinAlloc demoHeap none).1 none).2
        (withinAlloc (withinAlloc demoHeap none).1 none).1 demoTrace)
      (withinAlloc demoHeap none).2 =
      ctxSets (heapGet demoHeap 0) (ops1 demoTrace) ∧
    heapGet (runSib (withinAlloc demoHeap none).2
        (withinAlloc (withinAlloc demoHeap none).1 none).2
        (withinAlloc (withinAlloc demoHeap none).1 none).1 demoTrace)
      (withinAlloc (withinAlloc demoHeap none).1 none).2 =
      ctxSets (heapGet demoHeap 0) (ops2 demoTrace) ∧
    heapGet (runSib (withinAlloc demoHeap none).2
        (withinAlloc (withinAlloc demoHeap none).1 none).2
        (withinAlloc (withinAlloc demoHeap none).1 none).1 demoTrace) 0 =
      heapGet demoHeap 0 := by
  have h := within_noninterference demoHeap none demoTrace (by decide) (by decide)
    (withinAlloc demoHeap none).1 (withinAlloc demoHeap none).2
    (withinAlloc (withinAlloc demoHeap none).1 none).1
    (withinAlloc (withinAlloc demoHeap none).1 none).2 rfl rfl
  exact ⟨h.1, h.2.1, h.2.2.2⟩

end Sh
